import Mathlib

/-!
Verification of the core runtime of the Play-With-Seastar repository.

The development shallowly embeds the parts of the code base that the
checked properties are about:

* the future/promise combinators (`finally`, `then`, `parallel_for_each`,
  `map_reduce0`) — their implementation file (`core/future.hh` /
  `core/future-util.hh`) ships with upstream seastar and is not part of
  the source tree here, so those are modelled from the specification and
  validated against the tests that are in the tree;
* the bulk direct-I/O read path (`file::dma_read_bulk`,
  `file::read_state`, `file::read_maybe_eof` from `core/file.hh`);
* the timer arming state machine (`timer<Clock>` from `core/reactor.hh`)
  together with a spec-modelled expiry pass;
* `app_template::run_deprecated` from `core/app-template.cc`;
* `smp::submit_to` from `core/reactor.hh`;
* the write-behind sink `file_data_sink_impl::put` from `core/fstream.cc`.

Failures of futures are modelled as `Except Nat` values: `.error e`
stands for a failed future holding exception (or errno) `e`, `.ok`
for a resolved one.  Side effects of continuations are threaded through
an explicit state parameter `σ`.
-/

deriving instance DecidableEq for Except

namespace Seastar

/-! ### Future combinators (modelled from the spec; `future.hh` is not in the tree) -/

/-- Modelled from the spec: `future::finally(action)` — "always runs `action`;
forwards success or failure afterward.  If `action` itself fails, that failure
supersedes a prior success but not a prior failure (the prior is preserved)."
(`core/future.hh` is not in the source tree; only its tests are.)
The action's side effect is threaded through the state `σ`. -/
def finallyF {σ α : Type} (f : Except Nat α) (action : σ → σ × Except Nat Unit)
    (s : σ) : σ × Except Nat α :=
  let r := action s
  match f, r.2 with
  | .ok v, .ok _ => (r.1, .ok v)
  | .ok _, .error e => (r.1, .error e)
  | .error e, _ => (r.1, .error e)

/-- Modelled from the spec: `future::then(cont)` — "If failed, the failure is
forwarded, skipping the continuation"; otherwise the continuation runs on the
value.  (`core/future.hh` is not in the source tree.) -/
def thenF {σ α β : Type} (f : Except Nat α) (g : α → σ → σ × Except Nat β)
    (s : σ) : σ × Except Nat β :=
  match f with
  | .error e => (s, .error e)
  | .ok v => g v s

/-- Merge of an accumulated outcome with a fresh one, keeping the first
failure — the aggregation used when waiting for a batch of subtasks. -/
def mergeFail : Except Nat Unit → Except Nat Unit → Except Nat Unit
  | .error e, _ => .error e
  | .ok _, r => r

/-- Modelled from the spec: `parallel_for_each(range, task)` — issues the task
for every element; "all subtasks run to completion" even if some fail, and the
aggregate future fails iff any subtask failed, surfacing a subtask's exception
(the first, in this model).  (`core/future-util.hh` is not in the source
tree; only its tests are.)  Subtask side effects are threaded through `σ`. -/
def pfe_step {σ : Type} (task : Nat → σ → σ × Except Nat Unit)
    (p : σ × Except Nat Unit) (x : Nat) : σ × Except Nat Unit :=
  let q := task x p.1
  (q.1, mergeFail p.2 q.2)

def parallel_for_each {σ : Type} (xs : List Nat)
    (task : Nat → σ → σ × Except Nat Unit) (s : σ) : σ × Except Nat Unit :=
  xs.foldl (pfe_step task) (s, .ok ())

/-- The subtask of `test_parallel_for_each_early_failure`
(`tests/futures_test.cc`): increment the shared counter, then fail with the
index as the exception when `i % 1777 == 1337`. -/
def pfe_subtask (i : Nat) (counter : Nat) : Nat × Except Nat Unit :=
  (counter + 1, if i % 1777 = 1337 then .error i else .ok ())

lemma mergeFail_ok_right (a : Except Nat Unit) : mergeFail a (.ok ()) = a := by
  cases a <;> rfl

lemma mergeFail_assoc (a b c : Except Nat Unit) :
    mergeFail (mergeFail a b) c = mergeFail a (mergeFail b c) := by
  cases a <;> cases b <;> rfl

lemma pfe_step_subtask (p : Nat × Except Nat Unit) (x : Nat) :
    pfe_step pfe_subtask p x =
      (p.1 + 1, mergeFail p.2 (if x % 1777 = 1337 then .error x else .ok ())) := rfl

/-- Every subtask of the batch runs: the shared counter is incremented once
per issued index, whatever the failures. -/
lemma pfe_counter (xs : List Nat) (s : Nat) (acc : Except Nat Unit) :
    (xs.foldl (pfe_step pfe_subtask) (s, acc)).1 = s + xs.length := by
  induction xs generalizing s acc with
  | nil => simp
  | cons x xs ih =>
    rw [List.foldl_cons, pfe_step_subtask, ih]
    simp
    omega

/-- The aggregate outcome of the batch is the accumulated outcome merged with
the first failing index of the list (if any). -/
lemma pfe_outcome (xs : List Nat) (s : Nat) (acc : Except Nat Unit) :
    (xs.foldl (pfe_step pfe_subtask) (s, acc)).2 =
    mergeFail acc
      (match xs.find? (fun i => decide (i % 1777 = 1337)) with
        | some i => .error i
        | none => .ok ()) := by
  induction xs generalizing s acc with
  | nil => simp [mergeFail_ok_right]
  | cons x xs ih =>
    rw [List.foldl_cons, pfe_step_subtask, ih, List.find?_cons]
    by_cases hx : x % 1777 = 1337
    · simp only [hx, if_pos rfl, decide_eq_true_eq]
      rw [mergeFail_assoc]
      simp [mergeFail]
    · simp only [if_neg hx, hx, decide_eq_true_eq]
      rw [mergeFail_assoc]
      simp [mergeFail, mergeFail_ok_right]

/-- If some issued index fails, the aggregate future is failed, holding the
exception of one of the failing subtasks. -/
lemma pfe_exists (xs : List Nat) (s : Nat)
    (h : ∃ j ∈ xs, j % 1777 = 1337) :
    ∃ i, i % 1777 = 1337 ∧ (parallel_for_each xs pfe_subtask s).2 = .error i := by
  unfold parallel_for_each
  rw [pfe_outcome]
  rcases hfind : xs.find? (fun i => decide (i % 1777 = 1337)) with _ | i
  · exfalso
    obtain ⟨j, hj, hj2⟩ := h
    have := List.find?_eq_none.mp hfind j hj
    simp [hj2] at this
  · refine ⟨i, ?_, rfl⟩
    have := List.find?_some hfind
    simpa using this

/-- **C1**: for every future `fut` and every action, `finally(action)` runs the
action whether `fut` resolved with a value or with a failure (the action's
state effect is always applied), and the resulting future carries `fut`'s
outcome, except that a failure of the action supersedes a prior success while
a prior failure of `fut` is preserved; consequently `finally(f).then(g)` runs
`f` on both the success and the failure path before `g` runs (`g`, when it
runs, starts from the action's post-state). -/
theorem finally_runs_action_and_preserves_outcome {σ α β : Type}
    (fut : Except Nat α) (action : σ → σ × Except Nat Unit)
    (g : α → σ → σ × Except Nat β) (s : σ) :
    (finallyF fut action s).1 = (action s).1 ∧
    (∀ v, fut = .ok v → (action s).2 = .ok () → (finallyF fut action s).2 = .ok v) ∧
    (∀ v e, fut = .ok v → (action s).2 = .error e →
      (finallyF fut action s).2 = .error e) ∧
    (∀ e, fut = .error e → (finallyF fut action s).2 = .error e) ∧
    (∀ v, (finallyF fut action s).2 = .ok v →
      thenF (finallyF fut action s).2 g (finallyF fut action s).1 = g v (action s).1) := by
  rcases hA : action s with ⟨s1, r1⟩
  cases fut <;> cases r1 <;>
    simp [finallyF, thenF, hA]

/-- Witness for C1 at a concrete future, action and continuation. -/
theorem finally_runs_action_and_preserves_outcome_witness :
    (finallyF (Except.ok 4) (fun n : Nat => (n + 1, Except.ok ())) 0).1 = 1 ∧
    (finallyF (Except.ok 4) (fun n : Nat => (n + 1, Except.ok ())) 0).2 = Except.ok 4 := by
  have h := @finally_runs_action_and_preserves_outcome Nat Nat Nat
    (Except.ok 4) (fun n => (n + 1, Except.ok ()))
    (fun v n => (n, Except.ok (v + n))) 0
  exact ⟨h.1, h.2.1 4 rfl rfl⟩

/-- **C2**: issuing 11000 parallel subtasks of which those with
`i % 1777 == 1337` fail, every one of the 11000 subtasks runs to completion
(the shared counter reaches 11000) and the aggregate future resolves as
failed, surfacing one of the failing subtasks' exceptions. -/
theorem parallel_for_each_all_run_and_failure_surfaces :
    (parallel_for_each (List.range 11000) pfe_subtask 0).1 = 11000 ∧
    ∃ i, i % 1777 = 1337 ∧
      (parallel_for_each (List.range 11000) pfe_subtask 0).2 = Except.error i := by
  constructor
  · unfold parallel_for_each
    rw [pfe_counter]
    simp
  · exact pfe_exists _ 0 ⟨1337, List.mem_range.mpr (by norm_num), by norm_num⟩

/-! ### Bulk direct-I/O read path (`core/file.hh`) -/

/-- Byte buffers are lists of byte values. -/
abbrev Buf := List Nat

/-- A DMA read device: `dev pos len` is the outcome of
`dma_read(pos, buf, len)` — the bytes actually read (possibly fewer than
`len`, at EOF or on a glitch) or a failing errno. -/
abbrev Device := Nat → Nat → Except Nat Buf

def EINVAL : Nat := 22

/-- Modelled from the spec: `align_up(v, align)` rounds `v` up to the next
multiple of the alignment (`core/align.hh` is not in the source tree). -/
def align_up (x a : Nat) : Nat := a * ((x + a - 1) / a)

lemma le_align_up (x a : Nat) (ha : 0 < a) : x ≤ align_up x a := by
  unfold align_up
  have h1 := Nat.div_add_mod (x + a - 1) a
  have h2 := Nat.mod_lt (x + a - 1) ha
  omega

/-- `file::read_state<CharType>` from `core/file.hh`.  The filled prefix of
the aligned buffer is kept as the list `written` (so `pos` is
`written.length`); `bufSize` is the allocated `align_up(to_read,
disk_alignment)` bytes. -/
structure ReadState where
  written : Buf
  bufSize : Nat
  offset : Nat
  toRead : Nat
  front : Nat
  eof : Bool

def ReadState.pos (s : ReadState) : Nat := s.written.length

def ReadState.done (s : ReadState) : Bool := s.eof || decide (s.toRead ≤ s.pos)

def ReadState.cur_offset (s : ReadState) : Nat := s.offset + s.pos

def ReadState.left_space (s : ReadState) : Nat := s.bufSize - s.pos

def ReadState.left_to_read (s : ReadState) : Nat := s.toRead - s.pos

/-- `read_state::append_new_data`: copy `min(left_space(), new_data.size())`
bytes after the current position. -/
def ReadState.append_new_data (s : ReadState) (newData : Buf) : ReadState :=
  { s with written := s.written ++ newData.take (min s.left_space newData.length) }

def ReadState.have_good_bytes (s : ReadState) : Bool := decide (s.front < s.pos)

/-- `read_state::trim_buf_before_ret`: `buf.trim(pos); buf.trim_front(front)`
when bytes beyond `front` were read, otherwise `buf.trim(0)`. -/
def ReadState.trim_buf_before_ret (s : ReadState) : Buf :=
  if s.front < s.pos then s.written.drop s.front else []

/-- `file::read_maybe_eof` from `core/file.hh`: allocate a fresh aligned
buffer of `align_up(len, disk_read_dma_alignment())` bytes, read, trim the
buffer to the bytes read; an `EINVAL` failure is treated as EOF (zero-length
buffer), any other error propagates.  `A` is the disk-read alignment. -/
def read_maybe_eof (dev : Device) (A pos len : Nat) : Except Nat Buf :=
  let bufSize := align_up len A
  match dev pos bufSize with
  | .ok bytes => .ok (bytes.take bufSize)
  | .error e => if e = EINVAL then .ok [] else .error e

/-- The `do_until` loop of `file::dma_read_bulk`: until done, read at the
current offset and either append the new data or record EOF.  The fuel is
structural; `dma_read_bulk` passes enough for the loop to run to `done`. -/
def read_loop (dev : Device) (A : Nat) : Nat → ReadState → Except Nat ReadState
  | 0, s => .ok s
  | fuel + 1, s =>
    if s.done then .ok s
    else
      match read_maybe_eof dev A s.cur_offset s.left_to_read with
      | .error e => .error e
      | .ok buf1 =>
        if buf1.length ≠ 0 then read_loop dev A fuel (s.append_new_data buf1)
        else read_loop dev A fuel { s with eof := true }

/-- The position and size of the first aligned read issued by
`file::dma_read_bulk(offset, range_size)`: the offset aligned down with the
mask `offset & (alignment - 1)`, the range widened by the cut `front`, the
buffer rounded up to the alignment. -/
def first_read_request (A offset range_size : Nat) : Nat × Nat :=
  let front := offset &&& (A - 1)
  (offset - front, align_up (range_size + front) A)

/-- The `read_state` right after `dma_read_bulk`'s first read completed:
the constructor `read_state(offset, front, to_read, ...)` allocated the
aligned buffer of `bufSize` bytes, and `rstate->pos = size` recorded the
first read's data (held here as the filled prefix `firstData`). -/
def mk_read_state (firstData : Buf) (bufSize o' toRead front : Nat) : ReadState :=
  { written := firstData, bufSize := bufSize, offset := o', toRead := toRead,
    front := front, eof := false }

/-- `file::dma_read_bulk` from `core/file.hh` over an abstract device:
align the offset down and widen the range by `front`, issue the first
aligned read, then the read-copy loop, then trim before returning. -/
def dma_read_bulk (dev : Device) (A offset range_size : Nat) : Except Nat Buf :=
  let front := offset &&& (A - 1)
  let rq := first_read_request A offset range_size
  match dev rq.1 rq.2 with
  | .error e => .error e
  | .ok bytes =>
    match read_loop dev A (range_size + front + 1)
      (mk_read_state (bytes.take rq.2) rq.2 rq.1 (range_size + front) front) with
    | .error e => .error e
    | .ok sf => .ok sf.trim_buf_before_ret

/-- A glitch-free file holding `data`: a DMA read returns the bytes from
`pos` up to the requested length or up to end-of-file, and never fails. -/
def fileDev (data : Buf) : Device := fun pos len => .ok ((data.drop pos).take len)

lemma and_two_pow_sub_one (n k : Nat) : n &&& (2 ^ k - 1) = n % 2 ^ k := by
  apply Nat.eq_of_testBit_eq
  intro i
  rw [Nat.testBit_and, Nat.testBit_two_pow_sub_one, Nat.testBit_mod_two_pow]
  cases Nat.testBit n i <;> cases Nat.decLt i k <;> simp_all

lemma read_loop_done (dev : Device) (A fuel : Nat) (s : ReadState)
    (h : s.done = true) : read_loop dev A (fuel + 1) s = .ok s := by
  simp [read_loop, h]

lemma read_loop_eof (dev : Device) (A fuel : Nat) (s : ReadState)
    (h : s.done = false)
    (hread : read_maybe_eof dev A s.cur_offset s.left_to_read = .ok []) :
    read_loop dev A (fuel + 1 + 1) s = .ok { s with eof := true } := by
  rw [read_loop]
  simp only [h, Bool.false_eq_true, if_false, hread, List.length_nil, ne_eq,
    not_true_eq_false]
  exact read_loop_done dev A fuel _ (by simp [ReadState.done])

/-- On a glitch-free file, `dma_read_bulk` returns exactly the file's bytes
starting at the requested (unaligned) offset, as many as were read beyond the
front padding: the aligned transfer is trimmed at the front by
`offset % alignment` and at the tail at the number of bytes read. -/
lemma dma_read_bulk_fileDev (data : Buf) (k offset range_size : Nat) :
    dma_read_bulk (fileDev data) (2 ^ k) offset range_size =
      .ok ((data.drop offset).take
        (min (align_up (range_size + offset % 2 ^ k) (2 ^ k))
          (data.length - (offset - offset % 2 ^ k)) - offset % 2 ^ k)) := by
  have hA : 0 < 2 ^ k := Nat.pos_pow_of_pos k (by norm_num)
  have hmask : offset &&& (2 ^ k - 1) = offset % 2 ^ k :=
    and_two_pow_sub_one offset k
  have hfo : offset % 2 ^ k ≤ offset := Nat.mod_le _ _
  have hrB : range_size + offset % 2 ^ k ≤
      align_up (range_size + offset % 2 ^ k) (2 ^ k) :=
    le_align_up _ _ hA
  set f := offset % 2 ^ k with hf
  set o' := offset - f with ho'
  set r' := range_size + f with hr'
  set B := align_up r' (2 ^ k) with hBdef
  set W : Buf := (data.drop o').take B with hW
  have hWlen : W.length = min B (data.length - o') := by
    simp [hW, Nat.min_comm]
  set p0 := min B (data.length - o') with hp0
  have hWW : W.take B = W := by
    simp [hW, List.take_take]
  have hs0 : dma_read_bulk (fileDev data) (2 ^ k) offset range_size =
      match read_loop (fileDev data) (2 ^ k) (r' + 1) (mk_read_state W B o' r' f) with
      | .error e => .error e
      | .ok sf => .ok sf.trim_buf_before_ret := by
    simp only [dma_read_bulk, first_read_request, hmask, fileDev, ← hf, ← ho',
      ← hr', ← hBdef, ← hW, hWW]
  have hdone_eval : (mk_read_state W B o' r' f).done = decide (r' ≤ p0) := by
    simp [mk_read_state, ReadState.done, ReadState.pos, hWlen]
  have htrim :
      dma_read_bulk (fileDev data) (2 ^ k) offset range_size =
        .ok (if f < p0 then W.drop f else []) := by
    rw [hs0]
    by_cases hdone : r' ≤ p0
    · have hl := read_loop_done (fileDev data) (2 ^ k) r' (mk_read_state W B o' r' f)
        (by rw [hdone_eval]; simp [hdone])
      rw [hl]
      simp [mk_read_state, ReadState.trim_buf_before_ret, ReadState.pos, hWlen]
    · have hlt : p0 < r' := by omega
      have hp0eq : p0 = data.length - o' := by omega
      have hcur : data.length ≤ o' + p0 := by omega
      have hnd : (mk_read_state W B o' r' f).done = false := by
        rw [hdone_eval]; simp [hdone]
      have hread : read_maybe_eof (fileDev data) (2 ^ k)
          (mk_read_state W B o' r' f).cur_offset
          (mk_read_state W B o' r' f).left_to_read = .ok [] := by
        simp only [mk_read_state, ReadState.cur_offset, ReadState.left_to_read,
          ReadState.pos, hWlen]
        simp only [read_maybe_eof, fileDev]
        rw [List.drop_eq_nil_of_le hcur]
        simp
      obtain ⟨m, hm⟩ : ∃ m, r' = m + 1 := ⟨r' - 1, by omega⟩
      have hl := read_loop_eof (fileDev data) (2 ^ k) m (mk_read_state W B o' r' f)
        hnd hread
      rw [← hm] at hl
      rw [hl]
      simp [mk_read_state, ReadState.trim_buf_before_ret, ReadState.pos, hWlen]
  rw [htrim]
  by_cases hgood : f < p0
  · rw [if_pos hgood]
    have hdt : W.drop f = (data.drop offset).take (B - f) := by
      rw [hW, List.drop_take, List.drop_drop]
      have h9 : o' + f = offset := by omega
      rw [h9]
    rw [hdt]
    simp only [Except.ok.injEq]
    rw [List.take_eq_take]
    simp only [List.length_drop]
    omega
  · rw [if_neg hgood]
    have : p0 - f = 0 := by omega
    rw [this]
    simp

/-- **C3**: for every `offset` and `range_size`, `dma_read_bulk` computes
`front = offset mod disk_read_dma_alignment`, issues its first aligned read
at `offset - front` with the range widened by `front` (the buffer rounded up
to the alignment), and returns the buffer trimmed so its content begins
exactly at the requested `offset` and ends at the number of bytes actually
read; if no byte beyond the front padding exists (EOF at or before
`offset`), the returned buffer is empty. -/
theorem dma_read_bulk_aligns_widens_trims (data : Buf) (offset range_size k : Nat) :
    first_read_request (2 ^ k) offset range_size =
      (offset - offset % 2 ^ k, align_up (range_size + offset % 2 ^ k) (2 ^ k)) ∧
    dma_read_bulk (fileDev data) (2 ^ k) offset range_size =
      .ok ((data.drop offset).take
        (min (align_up (range_size + offset % 2 ^ k) (2 ^ k))
          (data.length - (offset - offset % 2 ^ k)) - offset % 2 ^ k)) ∧
    (data.length ≤ offset →
      dma_read_bulk (fileDev data) (2 ^ k) offset range_size = .ok []) := by
  refine ⟨?_, dma_read_bulk_fileDev data k offset range_size, ?_⟩
  · simp [first_read_request, and_two_pow_sub_one]
  · intro hle
    rw [dma_read_bulk_fileDev data k offset range_size]
    have hm := Nat.mod_le offset (2 ^ k)
    have h0 : min (align_up (range_size + offset % 2 ^ k) (2 ^ k))
        (data.length - (offset - offset % 2 ^ k)) - offset % 2 ^ k = 0 := by
      set U := align_up (range_size + offset % 2 ^ k) (2 ^ k) with hU
      set f := offset % 2 ^ k with hfd
      omega
    rw [h0]
    simp

/-- Witness for C3: reading past EOF yields an empty buffer. -/
theorem dma_read_bulk_aligns_widens_trims_witness :
    dma_read_bulk (fileDev [1, 2, 3]) (2 ^ 2) 7 5 = .ok [] :=
  (dma_read_bulk_aligns_widens_trims [1, 2, 3] 7 5 2).2.2 (by norm_num)

lemma read_loop_err (dev : Device) (A fuel : Nat) (s : ReadState) (e : Nat)
    (h : s.done = false)
    (hread : read_maybe_eof dev A s.cur_offset s.left_to_read = .error e) :
    read_loop dev A (fuel + 1) s = .error e := by
  rw [read_loop]
  simp [h, hread]

/-- Reduction of `dma_read_bulk` once the first read's outcome is known. -/
lemma dma_read_bulk_eq (dev : Device) (k offset range_size : Nat) (bytes : Buf)
    (h1 : dev (offset - offset % 2 ^ k)
      (align_up (range_size + offset % 2 ^ k) (2 ^ k)) = .ok bytes) :
    dma_read_bulk dev (2 ^ k) offset range_size =
      match read_loop dev (2 ^ k) (range_size + offset % 2 ^ k + 1)
        (mk_read_state (bytes.take (align_up (range_size + offset % 2 ^ k) (2 ^ k)))
          (align_up (range_size + offset % 2 ^ k) (2 ^ k))
          (offset - offset % 2 ^ k)
          (range_size + offset % 2 ^ k) (offset % 2 ^ k)) with
      | .error e => .error e
      | .ok sf => .ok sf.trim_buf_before_ret := by
  simp only [dma_read_bulk, first_read_request, and_two_pow_sub_one, h1]

/-- **C4**: in the bulk-read path, a follow-up read issued by
`read_maybe_eof` that fails with `EINVAL` is treated as end-of-file — it
yields a zero-length buffer, and when no byte beyond the front padding was
read, `dma_read_bulk` returns an empty buffer rather than a failed future;
any other I/O error of the follow-up read propagates as a failure of the
returned future. -/
theorem read_maybe_eof_einval_is_eof :
    (∀ (dev : Device) (A pos len : Nat),
      dev pos (align_up len A) = .error EINVAL →
      read_maybe_eof dev A pos len = .ok []) ∧
    (∀ (dev : Device) (A pos len e : Nat), e ≠ EINVAL →
      dev pos (align_up len A) = .error e →
      read_maybe_eof dev A pos len = .error e) ∧
    (∀ (dev : Device) (k offset range_size : Nat) (bytes : Buf),
      0 < range_size →
      bytes.length ≤ offset % 2 ^ k →
      dev (offset - offset % 2 ^ k)
        (align_up (range_size + offset % 2 ^ k) (2 ^ k)) = .ok bytes →
      dev (offset - offset % 2 ^ k + bytes.length)
        (align_up (range_size + offset % 2 ^ k - bytes.length) (2 ^ k)) =
        .error EINVAL →
      dma_read_bulk dev (2 ^ k) offset range_size = .ok []) ∧
    (∀ (dev : Device) (k offset range_size e : Nat) (bytes : Buf),
      e ≠ EINVAL →
      0 < range_size →
      bytes.length ≤ offset % 2 ^ k →
      dev (offset - offset % 2 ^ k)
        (align_up (range_size + offset % 2 ^ k) (2 ^ k)) = .ok bytes →
      dev (offset - offset % 2 ^ k + bytes.length)
        (align_up (range_size + offset % 2 ^ k - bytes.length) (2 ^ k)) =
        .error e →
      dma_read_bulk dev (2 ^ k) offset range_size = .error e) := by
  refine ⟨?_, ?_, ?_, ?_⟩
  · intro dev A pos len h
    simp [read_maybe_eof, h, EINVAL]
  · intro dev A pos len e hne h
    simp [read_maybe_eof, h, hne]
  · intro dev k offset range_size bytes hr hlen h1 h4
    rw [dma_read_bulk_eq dev k offset range_size bytes h1]
    set f := offset % 2 ^ k with hf
    set o' := offset - f with ho'
    set r' := range_size + f with hr'
    set B := align_up r' (2 ^ k) with hB
    have h2 : 0 < 2 ^ k := Nat.pos_pow_of_pos k (by norm_num)
    have hrB : r' ≤ B := le_align_up r' (2 ^ k) h2
    have hbt : bytes.take B = bytes := List.take_of_length_le (by omega)
    rw [hbt]
    have hnd : (mk_read_state bytes B o' r' f).done = false := by
      simp [mk_read_state, ReadState.done, ReadState.pos]
      omega
    have hread : read_maybe_eof dev (2 ^ k)
        (mk_read_state bytes B o' r' f).cur_offset
        (mk_read_state bytes B o' r' f).left_to_read = .ok [] := by
      simp only [mk_read_state, ReadState.cur_offset, ReadState.left_to_read,
        ReadState.pos]
      simp [read_maybe_eof, h4, EINVAL]
    obtain ⟨m, hm⟩ : ∃ m, r' = m + 1 := ⟨r' - 1, by omega⟩
    have hl := read_loop_eof dev (2 ^ k) m (mk_read_state bytes B o' r' f) hnd hread
    rw [← hm] at hl
    rw [hl]
    have hng : ¬ (f < bytes.length) := by omega
    simp [mk_read_state, ReadState.trim_buf_before_ret, ReadState.pos, hng]
  · intro dev k offset range_size e bytes hne hr hlen h1 h4
    rw [dma_read_bulk_eq dev k offset range_size bytes h1]
    set f := offset % 2 ^ k with hf
    set o' := offset - f with ho'
    set r' := range_size + f with hr'
    set B := align_up r' (2 ^ k) with hB
    have h2 : 0 < 2 ^ k := Nat.pos_pow_of_pos k (by norm_num)
    have hrB : r' ≤ B := le_align_up r' (2 ^ k) h2
    have hbt : bytes.take B = bytes := List.take_of_length_le (by omega)
    rw [hbt]
    have hnd : (mk_read_state bytes B o' r' f).done = false := by
      simp [mk_read_state, ReadState.done, ReadState.pos]
      omega
    have hread : read_maybe_eof dev (2 ^ k)
        (mk_read_state bytes B o' r' f).cur_offset
        (mk_read_state bytes B o' r' f).left_to_read = .error e := by
      simp only [mk_read_state, ReadState.cur_offset, ReadState.left_to_read,
        ReadState.pos]
      simp [read_maybe_eof, h4, hne]
    have hl := read_loop_err dev (2 ^ k) r' (mk_read_state bytes B o' r' f) e hnd hread
    rw [hl]

/-- Witness for C4: a device that serves two front-padding bytes and then
EINVALs makes `dma_read_bulk` return an empty buffer, not a failure. -/
theorem read_maybe_eof_einval_is_eof_witness :
    dma_read_bulk
      (fun pos _ => if pos = 0 then Except.ok ([9, 9] : Buf) else .error EINVAL)
      (2 ^ 2) 2 4 = .ok [] := by
  refine read_maybe_eof_einval_is_eof.2.2.1
    (fun pos _ => if pos = 0 then Except.ok ([9, 9] : Buf) else .error EINVAL)
    2 2 4 [9, 9] (by norm_num) (by norm_num) rfl rfl

/-! ### Timer arming and expiry (`core/reactor.hh`; the expiry pass of
`reactor::complete_timers` is modelled, `core/reactor.cc` not being in the
source tree) -/

/-- The state bits of `timer<Clock>` from `core/reactor.hh`:
`{expiry, optional period, armed-flag, queued-flag, expired-flag}`.
Time points and durations are naturals. -/
structure TimerState where
  armed : Bool := false
  queued : Bool := false
  expired : Bool := false
  expiry : Nat := 0
  period : Option Nat := none

/-- `timer::arm_state(until, period)` from `core/reactor.hh` (its
`assert(!_armed)` precondition appears as a hypothesis where relevant). -/
def arm_state (until_ : Nat) (period : Option Nat) (t : TimerState) : TimerState :=
  { t with period := period, armed := true, expired := false, expiry := until_,
           queued := true }

/-- `timer::arm(duration delta)` from `core/reactor.hh`:
`arm(Clock::now() + delta)`, with no period. -/
def arm_duration (now delta : Nat) (t : TimerState) : TimerState :=
  arm_state (now + delta) none t

/-- `timer::cancel()` from `core/reactor.hh`. -/
def cancel (t : TimerState) : TimerState :=
  if !t.armed then t else { t with armed := false, queued := false }

/-- Modelled from the spec: one reactor timer pass at instant `now`
("Handle expired timers by moving their callbacks onto the ready-task
queue (periodic timers re-arm themselves)"; `complete_timers` lives in
`core/reactor.cc`, which is not in the source tree).  A queued timer whose
expiry has been reached fires: it is dequeued, marked expired and disarmed,
its callback runs, and a periodic timer re-arms itself at `now + period`
while a non-periodic one stays disarmed.  Returns the new state and whether
the callback ran. -/
def expire_step (now : Nat) (t : TimerState) : TimerState × Bool :=
  if t.queued && decide (t.expiry ≤ now) then
    let t' : TimerState := { t with queued := false, expired := true, armed := false }
    match t.period with
    | none => (t', true)
    | some p => (arm_state (now + p) (some p) t', true)
  else (t, false)

/-- Run reactor timer passes at the given instants, collecting the instants
at which the timer's callback fired. -/
def run_trace (times : List Nat) (t : TimerState) : TimerState × List Nat :=
  match times with
  | [] => (t, [])
  | now :: rest =>
    let s := expire_step now t
    let r := run_trace rest s.1
    (r.1, if s.2 then now :: r.2 else r.2)

/-- `sleep(dur)` from `core/sleep.hh`: a fresh timer whose callback fulfils
the sleeper's promise, armed via `tmr.arm(dur)` at current instant `now0`;
the returned future becomes ready exactly when the callback fires. -/
def sleep_timer (now0 dur : Nat) : TimerState := arm_duration now0 dur {}

lemma run_trace_unqueued (times : List Nat) (t : TimerState)
    (h : t.queued = false) : run_trace times t = (t, []) := by
  induction times with
  | nil => rfl
  | cons now rest ih =>
    simp only [run_trace, expire_step, h, Bool.false_and, if_false,
      Bool.false_eq_true, ih]

/-- A queued non-periodic timer fires exactly at the first processed instant
that reaches its expiry, after which it is dequeued and disarmed for good. -/
lemma run_trace_nonperiodic (times : List Nat) (t : TimerState)
    (hq : t.queued = true) (hp : t.period = none) :
    run_trace times t =
      match times.find? (fun x => decide (t.expiry ≤ x)) with
      | none => (t, [])
      | some x => ({ t with queued := false, expired := true, armed := false }, [x]) := by
  induction times with
  | nil => rfl
  | cons now rest ih =>
    by_cases hx : t.expiry ≤ now
    · have hfire : expire_step now t =
          ({ t with queued := false, expired := true, armed := false }, true) := by
        simp [expire_step, hq, hx, hp]
      simp only [run_trace, hfire, List.find?_cons, hx, decide_eq_true_eq, if_pos]
      rw [run_trace_unqueued rest _ rfl]
      simp [hx]
    · have hskip : expire_step now t = (t, false) := by
        simp [expire_step, hq, hx]
      simp only [run_trace, hskip, List.find?_cons]
      rw [ih]
      simp [hx]

/-- **C5**: a timer armed with expiry `now0 + dur` and no period (as done by
`sleep(dur)`) fires at most once, only at instants at or after its expiry,
and exactly once as soon as a processed instant reaches the expiry — so the
future returned by `sleep(dur)` becomes ready no earlier than `dur` after
the arming instant, and the callback never runs again afterwards. -/
theorem timer_fires_once_at_or_after_expiry (now0 dur : Nat) (times : List Nat) :
    (run_trace times (sleep_timer now0 dur)).2.length ≤ 1 ∧
    (∀ x ∈ (run_trace times (sleep_timer now0 dur)).2, now0 + dur ≤ x) ∧
    ((∃ x ∈ times, now0 + dur ≤ x) →
      (run_trace times (sleep_timer now0 dur)).2.length = 1) := by
  have hchar := run_trace_nonperiodic times (sleep_timer now0 dur) rfl rfl
  have hexp : (sleep_timer now0 dur).expiry = now0 + dur := rfl
  rw [hexp] at hchar
  rcases hfind : times.find? (fun x => decide (now0 + dur ≤ x)) with _ | x
  · rw [hfind] at hchar
    rw [hchar]
    refine ⟨by simp, by simp, ?_⟩
    rintro ⟨x, hmem, hle⟩
    have := List.find?_eq_none.mp hfind x hmem
    simp [hle] at this
  · rw [hfind] at hchar
    rw [hchar]
    have hx := List.find?_some hfind
    simp only [decide_eq_true_eq] at hx
    refine ⟨by simp, ?_, fun _ => by simp⟩
    intro y hy
    simp only [List.mem_singleton] at hy
    simpa [hy] using hx

/-- Witness for C5: armed at instant 0 for duration 5, processing instants
3, 7, 9 fires the callback exactly once. -/
theorem timer_fires_once_witness :
    (run_trace [3, 7, 9] (sleep_timer 0 5)).2.length = 1 :=
  (timer_fires_once_at_or_after_expiry 0 5 [3, 7, 9]).2.2
    ⟨7, by simp, by norm_num⟩

/-! ### Distributed map-reduce (`tests/distributed_test.cc`) -/

/-- `X::cpu_id_squared` from `tests/distributed_test.cc`: the square of the
calling shard's cpu id. -/
def cpu_id_squared (id : Nat) : Nat := id * id

/-- Modelled from the spec: `distributed<X>::map_reduce0(map, initial,
reduce)` invokes `map` on the instance of each of the `N` shards (cpu ids
`0 .. N-1`) and folds the results with `reduce` starting from `initial`
(`core/distributed.hh` is not in the source tree; only its tests are). -/
def map_reduce0 (N : Nat) (map : Nat → Nat) (initial : Nat)
    (reduce : Nat → Nat → Nat) : Nat :=
  ((List.range N).map map).foldl reduce initial

lemma sum_squares_six (N : Nat) :
    6 * map_reduce0 N cpu_id_squared 0 Nat.add = (N - 1) * N * (2 * N - 1) := by
  induction N with
  | zero => rfl
  | succ n ih =>
    have hstep : map_reduce0 (n + 1) cpu_id_squared 0 Nat.add =
        map_reduce0 n cpu_id_squared 0 Nat.add + n * n := by
      unfold map_reduce0
      rw [List.range_succ, List.map_append, List.foldl_append]
      simp [cpu_id_squared, Nat.add]
    rw [hstep, Nat.mul_add, ih]
    simp only [Nat.add_sub_cancel]
    cases n with
    | zero => norm_num
    | succ m =>
      simp only [Nat.add_sub_cancel]
      have h1 : 2 * (m + 1) - 1 = 2 * m + 1 := by omega
      have h2 : 2 * (m + 1 + 1) - 1 = 2 * m + 3 := by omega
      rw [h1, h2]
      ring

/-- **C6**: invoking `X::cpu_id_squared` on every one of `N` shards and
reducing by integer sum from 0 yields exactly `(N-1)·N·(2N-1)/6`. -/
theorem map_reduce_cpu_id_squared (N : Nat) :
    map_reduce0 N cpu_id_squared 0 Nat.add = (N - 1) * N * (2 * N - 1) / 6 := by
  have h := sum_squares_six N
  omega

/-! ### Application template (`core/app-template.cc`) -/

/-- A parsed configuration: the accumulated option map as (key, value)
pairs (boost's `variables_map`). -/
abbrev Config := List (String × String)

/-- Modelled from the spec: one `key=value` line of a
boost::program_options config file (held as the already split key/value
pair); a key not among the registered options is an options error. -/
def parse_config_line (registered : List String) (kv : String × String) :
    Except Unit (String × String) :=
  if kv.1 ∈ registered then .ok kv else .error ()

/-- Modelled from the spec: boost's `parse_config_file`, line-oriented over
the `key=value` lines of the file; any unknown key raises an options
error. -/
def parse_config_file (registered : List String)
    (lines : List (String × String)) : Except Unit Config :=
  lines.mapM (parse_config_line registered)

/-- The config file path probed by `app_template::run_deprecated`:
`std::string(home) + "/.config/seastar/seastar.conf"`. -/
def conf_path (home : String) : String :=
  home ++ "/.config/seastar/seastar.conf"

/-- The io config file path probed by `app_template::run_deprecated`:
`std::string(home) + "/.config/seastar/io.conf"`. -/
def io_conf_path (home : String) : String :=
  home ++ "/.config/seastar/io.conf"

/-- The `if (home)` block of `run_deprecated`: store the parses of
`seastar.conf` and `io.conf` into the configuration when those files open;
a parse error propagates (to be caught as `bpo::error`). -/
def load_config_files (c : Config) (h : String)
    (fs : String → Option (List (String × String)))
    (registered : List String) : Except Unit Config :=
  let c2 : Except Unit Config :=
    match fs (conf_path h) with
    | some lines =>
      match parse_config_file registered lines with
      | .error e => .error e
      | .ok kvs => .ok (c ++ kvs)
    | none => .ok c
  match c2 with
  | .error e => .error e
  | .ok c2v =>
    match fs (io_conf_path h) with
    | some lines =>
      match parse_config_file registered lines with
      | .error e => .error e
      | .ok kvs => .ok (c2v ++ kvs)
    | none => .ok c2v

/-- `app_template::run_deprecated` from `core/app-template.cc`: store the
command-line parse; when `HOME` is set, additionally parse
`$HOME/.config/seastar/seastar.conf` and `$HOME/.config/seastar/io.conf`
when those files exist.  A `bpo::error` thrown by any of the parses is
caught and the function returns 2.  Otherwise, when `help` was requested
the options description is printed and 1 is returned; else the value of
`engine().run()` becomes the exit code.  The command-line parse outcome,
the `HOME` variable and the file system are abstract inputs; `engineRun`
stands for `engine().run()`'s value. -/
def run_deprecated (cmdline : Except Unit Config) (home : Option String)
    (fs : String → Option (List (String × String)))
    (registered : List String) (engineRun : Int) : Int :=
  let parsed : Except Unit Config :=
    match cmdline with
    | .error e => .error e
    | .ok c =>
      match home with
      | none => .ok c
      | some h => load_config_files c h fs registered
  match parsed with
  | .error _ => 2
  | .ok configuration =>
    if configuration.countP (fun kv => kv.1 == "help") ≠ 0 then 1
    else engineRun

/-- **C7**: `run_deprecated` returns 2 whenever command-line or
configuration-file parsing raises an options error, returns 1 (after
printing the description) when `--help` was given, and otherwise returns
the value produced by the reactor's `run()`. -/
theorem run_deprecated_exit_codes :
    (∀ (home : Option String) (fs : String → Option (List (String × String)))
       (registered : List String) (engineRun : Int),
      run_deprecated (.error ()) home fs registered engineRun = 2) ∧
    (∀ (cfg : Config) (fs : String → Option (List (String × String)))
       (registered : List String) (engineRun : Int) (h : String)
       (lines : List (String × String)),
      fs (conf_path h) = some lines →
      parse_config_file registered lines = .error () →
      run_deprecated (.ok cfg) (some h) fs registered engineRun = 2) ∧
    (∀ (cfg : Config) (fs : String → Option (List (String × String)))
       (registered : List String) (engineRun : Int),
      cfg.countP (fun kv => kv.1 == "help") ≠ 0 →
      run_deprecated (.ok cfg) none fs registered engineRun = 1) ∧
    (∀ (cfg : Config) (fs : String → Option (List (String × String)))
       (registered : List String) (engineRun : Int),
      cfg.countP (fun kv => kv.1 == "help") = 0 →
      run_deprecated (.ok cfg) none fs registered engineRun = engineRun) := by
  refine ⟨?_, ?_, ?_, ?_⟩
  · intro home fs registered engineRun
    simp [run_deprecated]
  · intro cfg fs registered engineRun h lines hfs hparse
    simp [run_deprecated, load_config_files, hfs, hparse]
  · intro cfg fs registered engineRun hhelp
    simp [run_deprecated, hhelp]
  · intro cfg fs registered engineRun hhelp
    simp [run_deprecated, hhelp]

/-- Witness for C7: with no `HOME`, an empty command line and no help
request, the exit code is the reactor's run() value. -/
theorem run_deprecated_exit_codes_witness :
    run_deprecated (.ok []) none (fun _ => none) [] 42 = 42 :=
  run_deprecated_exit_codes.2.2.2 [] (fun _ => none) [] 42 rfl

/-- Counterexample to C8 as stated: the configuration file the code reads
under `$HOME/.config/seastar/` is named `seastar.conf`, not `app.conf`. -/
theorem conf_path_is_not_app_conf :
    conf_path "/home/u" ≠ "/home/u" ++ "/.config/seastar/app.conf" := by
  decide

/-- **C8 (amended)**: when `HOME` is set, the configuration is loaded from
the line-oriented `key=value` files `$HOME/.config/seastar/seastar.conf`
plus a separate `io.conf` in the same directory (the run depends on the
file system only through those two paths), and a key unknown to the
registered options is an error (leading to exit code 2). -/
theorem config_loaded_from_seastar_conf (h : String) :
    (∀ (c : Except Unit Config)
       (fs fs' : String → Option (List (String × String)))
       (registered : List String) (engineRun : Int),
      fs (conf_path h) = fs' (conf_path h) →
      fs (io_conf_path h) = fs' (io_conf_path h) →
      run_deprecated c (some h) fs registered engineRun =
        run_deprecated c (some h) fs' registered engineRun) ∧
    (∀ (registered : List String) (kv : String × String),
      kv.1 ∉ registered → parse_config_line registered kv = .error ()) ∧
    (∀ (cfg : Config) (fs : String → Option (List (String × String)))
       (registered : List String) (engineRun : Int)
       (lines : List (String × String)),
      fs (conf_path h) = some lines →
      parse_config_file registered lines = .error () →
      run_deprecated (.ok cfg) (some h) fs registered engineRun = 2) ∧
    conf_path h = h ++ "/.config/seastar/seastar.conf" ∧
    io_conf_path h = h ++ "/.config/seastar/io.conf" := by
  refine ⟨?_, ?_, ?_, rfl, rfl⟩
  · intro c fs fs' registered engineRun h1 h2
    have hload : ∀ cfg, load_config_files cfg h fs registered =
        load_config_files cfg h fs' registered := by
      intro cfg
      unfold load_config_files
      rw [h1, h2]
    cases c with
    | error e => rfl
    | ok cfg => simp [run_deprecated, hload]
  · intro registered kv hk
    simp [parse_config_line, hk]
  · intro cfg fs registered engineRun lines hfs hparse
    simp [run_deprecated, load_config_files, hfs, hparse]

/-- Witness for C8: an unknown key `foo` in `seastar.conf` makes the run
exit with code 2. -/
theorem config_loaded_from_seastar_conf_witness :
    run_deprecated (.ok []) (some "/home/u")
      (fun p => if p = conf_path "/home/u" then some [("foo", "1")] else none)
      ["smp"] 0 = 2 := by
  exact (config_loaded_from_seastar_conf "/home/u").2.2.1 []
    (fun p => if p = conf_path "/home/u" then some [("foo", "1")] else none)
    ["smp"] 0 [("foo", "1")] (by simp) (by decide)

/-! ### SMP submit_to (`core/reactor.hh`) -/

/-- The observable effect of `smp::submit_to`: either the function was run
on the calling shard (yielding a ready or failed future), or a work item
was submitted on the SMP ring `_qs[t][engine().cpu_id()]`. -/
inductive SubmitOutcome (α : Type) where
  | localRun (result : Except Nat α)
  | enqueued (target source : Nat)

/-- `smp::submit_to(t, func)` from `core/reactor.hh`: when `t` equals the
calling shard's cpu id the function is applied right there, a thrown
exception being caught and turned into a failed future ("consistently
return a failed future rather than throwing, to simplify callers");
otherwise the work item is submitted to the ring
`_qs[t][engine().cpu_id()]`.  `func` is modelled as returning `Except`,
`.error` standing for a thrown exception. -/
def submit_to {α : Type} (cpu_id t : Nat) (func : Unit → Except Nat α) :
    SubmitOutcome α :=
  if t = cpu_id then .localRun (func ())
  else .enqueued t cpu_id

/-- **C9**: submitting to the calling shard's own cpu id runs the function
locally, enqueueing nothing on any SMP ring, and a thrown exception becomes
a failed future instead of propagating out of `submit_to`. -/
theorem submit_to_local_catches {α : Type} (cpu t : Nat)
    (func : Unit → Except Nat α) (h : t = cpu) :
    submit_to cpu t func = .localRun (func ()) ∧
    (∀ e, func () = .error e → submit_to cpu t func = .localRun (.error e)) := by
  subst h
  refine ⟨by simp [submit_to], ?_⟩
  intro e he
  simp [submit_to, he]

/-- Witness for C9: a throwing function submitted to the local shard. -/
theorem submit_to_local_catches_witness :
    submit_to 3 3 (fun _ => (Except.error 7 : Except Nat Nat)) =
      .localRun (.error 7) :=
  (submit_to_local_catches 3 3 (fun _ => Except.error 7) rfl).2 7 rfl

/-! ### Write-behind file data sink (`core/fstream.cc`) -/

/-- The state of `file_data_sink_impl` relevant to the write-behind path:
`_pos`, `_failed`, and the resolved outcome of `_background_writes_done`. -/
structure SinkState where
  pos : Nat
  failed : Bool
  background : Except Nat Unit

/-- A fresh sink: `_pos = 0`, `_failed = false`,
`_background_writes_done = make_ready_future<>()`. -/
def initSink : SinkState := { pos := 0, failed := false, background := .ok () }

/-- The merge continuation inside `file_data_sink_impl::put`
(`core/fstream.cc`): "merge the two errors, preferring the first"; when the
accumulated outcome `e1` was a success and the fresh write `e2` failed,
`_failed` is set.  Returns the merged outcome and the new `_failed` flag. -/
def merge_errors (e1 e2 : Except Nat Unit) (failed : Bool) :
    Except Nat Unit × Bool :=
  match e1 with
  | .error a => (.error a, failed)
  | .ok _ =>
    match e2 with
    | .error b => (.error b, true)
    | .ok _ => (.ok (), failed)

/-- `file_data_sink_impl::put` with write-behind on, sequentialised: each
background write completes (with outcome `writeResult`) and is merged into
`_background_writes_done` before the next put runs.  When `_failed` is
already set, no new `dma_write` is issued: the accumulated
`_background_writes_done` is returned to the caller (surfacing the stored
failure) and replaced by a ready future.  Returns the new state, the future
`put` returns, and whether a `dma_write` was issued. -/
def sink_put (s : SinkState) (bufLen : Nat) (writeResult : Except Nat Unit) :
    SinkState × Except Nat Unit × Bool :=
  let pos' := s.pos + bufLen
  if s.failed then
    ({ pos := pos', failed := s.failed, background := .ok () }, s.background, false)
  else
    let m := merge_errors s.background writeResult s.failed
    ({ pos := pos', failed := m.2, background := m.1 }, .ok (), true)

/-- Run a sequence of puts, collecting for each whether a `dma_write` was
issued. -/
def sink_run (s : SinkState) (ps : List (Nat × Except Nat Unit)) :
    SinkState × List Bool :=
  match ps with
  | [] => (s, [])
  | p :: rest =>
    let r := sink_put s p.1 p.2
    let q := sink_run r.1 rest
    (q.1, r.2.2 :: q.2)

lemma sink_run_failed (ps : List (Nat × Except Nat Unit)) (s : SinkState)
    (h : s.failed = true) : ∀ b ∈ (sink_run s ps).2, b = false := by
  induction ps generalizing s with
  | nil => simp [sink_run]
  | cons p rest ih =>
    intro b hb
    simp only [sink_run, sink_put, h, if_pos, List.mem_cons] at hb
    rcases hb with hb | hb
    · exact hb
    · exact ih _ rfl b hb

/-- **C10**: once a background write has failed, `_failed` is set and every
subsequent `put()` issues no new `dma_write` — it returns the accumulated
background-writes future, surfacing the stored failure, and resets the
accumulator to ready; when two background writes fail, the merge keeps the
earlier failure. -/
theorem write_behind_failure_latches (s : SinkState) (bufLen : Nat)
    (wr : Except Nat Unit) :
    (s.failed = true →
      sink_put s bufLen wr =
        ({ pos := s.pos + bufLen, failed := true, background := .ok () },
          s.background, false)) ∧
    (∀ e, s.failed = false → s.background = .ok () → wr = .error e →
      (sink_put s bufLen wr).1.failed = true ∧
      (sink_put s bufLen wr).1.background = .error e) ∧
    (∀ e1, s.failed = false → s.background = .error e1 →
      (sink_put s bufLen wr).1.background = .error e1) ∧
    (∀ e1 e2 f, merge_errors (.error e1) e2 f = (.error e1, f)) ∧
    (s.failed = true → ∀ ps, ∀ b ∈ (sink_run s ps).2, b = false) := by
  refine ⟨?_, ?_, ?_, fun e1 e2 f => rfl, fun h ps => sink_run_failed ps s h⟩
  · intro h
    simp [sink_put, h]
  · intro e h hb hw
    simp [sink_put, merge_errors, h, hb, hw]
  · intro e1 h hb
    simp [sink_put, merge_errors, h, hb]

/-- Witness for C10: the first failing write sets `_failed` and stores the
failure in the accumulated background future. -/
theorem write_behind_failure_latches_witness :
    (sink_put initSink 10 (Except.error 5)).1.failed = true ∧
    (sink_put initSink 10 (Except.error 5)).1.background = Except.error 5 :=
  (write_behind_failure_latches initSink 10 (Except.error 5)).2.1 5 rfl rfl rfl

end Seastar
